import Mathlib

/-!
Verification of the VM inventory filter/deduplicator and the performance
sampling-parameter selector of the export-for-vcenter repository.

The definitions below are shallow embeddings of:
- `src/collectors/vm_collector.py` : `VMCollector._should_skip_vm` (lines 76-104),
  `VMCollector._is_duplicate_uuid` (lines 106-125), the power/guest-state check
  inside `VMCollector.get_vm_properties` (line 167);
- `src/vcenter_orchestrator.py` : the VM processing loop (lines 116-133);
- `src/collectors/performance_collector.py` :
  `PerformanceCollector._determine_sampling_parameters` (lines 211-247).

The wildcard matcher of `_should_skip_vm` calls Python's `re` module on
`re.escape(pattern).replace('\\*', '.*')`.  That regex engine is embedded
here as: `reEscape` (Python `re.escape`, which prefixes every special
character with a backslash), `replStar` (Python `str.replace` of the
two-character sequence backslash-star by dot-star, left to right,
non-overlapping), `parseRe` (a parser for the regex sublanguage that those
transformed patterns live in: escaped literals, `.`, and `*` applied to the
previous atom; it fails, like `re.compile`, on a dangling backslash, on a
quantifier with nothing to repeat, and on a repeated quantifier; it is
conservative - it also rejects raw unescaped metacharacters, none of which
the transformation can produce), and `matchItems` / `reSearch` (the match
semantics, where `.` matches any character except the newline, exactly as
Python's `.` does without `re.DOTALL`).
-/

/-- The characters Python's `re.escape` prefixes with a backslash. -/
def pySpecial : List Char :=
  ['(', ')', '[', ']', '{', '}', '?', '*', '+', '-', '|', '^', '$', '\\',
   '.', '&', '~', '#', ' ', '\t', '\n', '\r', '\x0b', '\x0c']

/-- The metacharacter set `_should_skip_vm` probes for
(`'*?[](){}|^$+\\'` in the Python source, line 88). -/
def metaChars : List Char :=
  ['*', '?', '[', ']', '(', ')', '{', '}', '|', '^', '$', '+', '\\']

/-- Raw regex metacharacters the embedded parser refuses (everything a
Python regex treats specially other than `\\`, `.` and `*`, which the
parser handles itself). -/
def rawSpecial (c : Char) : Bool :=
  decide (c ∈ ['(', ')', '[', ']', '{', '}', '?', '+', '|', '^', '$'])

/-- Python `re.escape`: prefix every special character with a backslash. -/
def reEscape : List Char → List Char
  | [] => []
  | c :: p => (if c ∈ pySpecial then ['\\', c] else [c]) ++ reEscape p

/-- Python `.replace('\\*', '.*')`: replace every occurrence of the
two-character sequence backslash-star by dot-star, scanning left to right,
non-overlapping. -/
def replStar : List Char → List Char
  | [] => []
  | [c] => [c]
  | c :: d :: rest =>
    if c = '\\' ∧ d = '*' then '.' :: '*' :: replStar rest
    else c :: replStar (d :: rest)

/-- A regex atom of the sublanguage reached by the escaped patterns:
a literal character, or `.` (any character except newline). -/
inductive RAtom where
  | lit (c : Char)
  | dot
deriving DecidableEq

/-- A regex item: an atom, or an atom under a `*` quantifier. -/
inductive RItem where
  | once (a : RAtom)
  | star (a : RAtom)
deriving DecidableEq

/-- Whether an atom matches one character.  `.` matches any character
except the newline, as in Python without `re.DOTALL`. -/
def matchAtom : RAtom → Char → Bool
  | RAtom.lit c, d => c = d
  | RAtom.dot, d => d ≠ '\n'

/-- The regex items the transformed pattern compiles to: each `*` of the
original pattern becomes `.` under a star, every other character a literal. -/
def itemsOf (p : List Char) : List RItem :=
  p.map fun c => if c = '*' then RItem.star RAtom.dot else RItem.once (RAtom.lit c)

/-- The model of `re.compile` on the sublanguage: scans left to right with
an accumulator of already-parsed items (in reverse).  Returns `none` on a
dangling backslash, a `*` with nothing to repeat or following another `*`
(Python: "nothing to repeat" / "multiple repeat"), and, conservatively, on
raw unescaped metacharacters. -/
def parseRe : List RItem → List Char → Option (List RItem)
  | acc, [] => some acc.reverse
  | acc, c :: rest =>
    if c = '\\' then
      match rest with
      | [] => none
      | d :: rest2 => parseRe (RItem.once (RAtom.lit d) :: acc) rest2
    else if c = '.' then
      parseRe (RItem.once RAtom.dot :: acc) rest
    else if c = '*' then
      match acc with
      | RItem.once a :: acc2 => parseRe (RItem.star a :: acc2) rest
      | _ => none
    else if rawSpecial c then
      none
    else
      parseRe (RItem.once (RAtom.lit c) :: acc) rest

/-- Matches a starred atom against a prefix of the string: either the rest
of the regex matches here, or one more character matching the atom is
consumed. -/
def matchStar (f : List Char → Bool) (g : Char → Bool) : List Char → Bool
  | [] => f []
  | d :: t => f (d :: t) || (g d && matchStar f g t)

/-- Whether a regex (list of items) matches a string exactly. -/
def matchItems : List RItem → List Char → Bool
  | [], s => s.isEmpty
  | RItem.once a :: rest, s =>
    match s with
    | [] => false
    | d :: t => matchAtom a d && matchItems rest t
  | RItem.star a :: rest, s => matchStar (fun t => matchItems rest t) (matchAtom a) s

/-- All decompositions of a list into a pair of adjacent parts. -/
def splits : List Char → List (List Char × List Char)
  | [] => [([], [])]
  | c :: t => ([], c :: t) :: (splits t).map fun pr => (c :: pr.1, pr.2)

/-- Whether `needle` occurs at the very start of `hay`. -/
def beginsWith : List Char → List Char → Bool
  | [], _ => true
  | _ :: _, [] => false
  | a :: as, b :: bs => a = b && beginsWith as bs

/-- Python's substring test `needle in hay`. -/
def containsSub (hay needle : List Char) : Bool :=
  (splits hay).any fun pr => beginsWith needle pr.2

/-- Python's `re.search`: the regex matches somewhere inside the string. -/
def reSearch (r : List RItem) (s : List Char) : Bool :=
  (splits s).any fun pr => (splits pr.2).any fun qr => matchItems r qr.1

/-- The full regex engine of the wildcard branch of `_should_skip_vm`:
compile `re.escape(pattern).replace('\\*', '.*')` and search in the name;
`none` models an `re.error` escaping from compilation. -/
def regexEngine (pat name : List Char) : Option Bool :=
  (parseRe [] (replStar (reEscape pat))).map fun r => reSearch r name

/-- The metacharacter probe of `_should_skip_vm` line 88:
`any(c in pattern for c in '*?[](){}|^$+\\')`. -/
def hasMeta (pat : String) : Bool :=
  pat.data.any fun c => metaChars.contains c

/-- Python `pattern.replace("*", "")` used by the fallback branch. -/
def stripStars (pat : List Char) : List Char :=
  pat.filter fun c => c ≠ '*'

/-- One pattern check of `_should_skip_vm` (lines 86-103), parametrised by
the regex engine so that the `except re.error` fallback branch can be
stated for an arbitrary (possibly failing) engine: a pattern with
metacharacters goes through the engine, falling back to a plain substring
test on the star-stripped pattern if the engine fails; a pattern without
metacharacters is an exact string comparison. -/
def matchesPatternWith (engine : List Char → List Char → Option Bool)
    (name pat : String) : Bool :=
  if hasMeta pat then
    match engine pat.data name.data with
    | some b => b
    | none => containsSub name.data (stripStars pat.data)
  else
    name == pat

/-- One pattern check of `_should_skip_vm` with the real regex engine. -/
def matchesPattern (name pat : String) : Bool :=
  matchesPatternWith regexEngine name pat

/-- `_should_skip_vm` over the whole skip list, engine-parametrised:
patterns are tried in order, first match wins. -/
def shouldSkipByNameWith (engine : List Char → List Char → Option Bool)
    (name : String) (patterns : List String) : Bool :=
  patterns.any fun p => matchesPatternWith engine name p

/-- `VMCollector._should_skip_vm` (vm_collector.py lines 76-104). -/
def shouldSkipByName (name : String) (patterns : List String) : Bool :=
  shouldSkipByNameWith regexEngine name patterns

/-- Denotational semantics of a regex item list: `[]` matches only the
empty string; an atom matches one admissible character; a starred atom
matches any run of admissible characters. -/
def RMatch : List RItem → List Char → Prop
  | [], s => s = []
  | RItem.once a :: r, s => ∃ c t, s = c :: t ∧ matchAtom a c = true ∧ RMatch r t
  | RItem.star a :: r, s =>
    ∃ u t, s = u ++ t ∧ (∀ x ∈ u, matchAtom a x = true) ∧ RMatch r t

/-- The wildcard semantics exactly as the specification words it: every `*`
matches any sequence of characters (including the empty one), every other
character matches itself. -/
def GlobSpec : List Char → List Char → Prop
  | [], s => s = []
  | c :: p, s =>
    if c = '*' then ∃ g t, s = g ++ t ∧ GlobSpec p t
    else ∃ t, s = c :: t ∧ GlobSpec p t

/-- The wildcard semantics the code actually implements: as `GlobSpec`,
except that a `*` only matches sequences free of the newline character
(Python's `.` does not match a newline without `re.DOTALL`). -/
def GlobCode : List Char → List Char → Prop
  | [], s => s = []
  | c :: p, s =>
    if c = '*' then ∃ g t, s = g ++ t ∧ (∀ x ∈ g, x ≠ '\n') ∧ GlobCode p t
    else ∃ t, s = c :: t ∧ GlobCode p t

/-- One flattened VM inventory record, restricted to the fields the
filter/dedup pass reads. -/
structure InventoryRecord where
  name : String
  uuid : String
  primaryIpAddress : String
  powerState : String
  guestState : Option String
deriving DecidableEq

/-- The duplicate-tracking state of `VMCollector`: `seen_uuids` and
`duplicate_uuids` (vm_collector.py lines 27-28). -/
structure DuplicateLedger where
  seen : List String
  duplicates : List (String × List String)
deriving DecidableEq

/-- The ledger at the start of a collection run. -/
def emptyLedger : DuplicateLedger := ⟨[], []⟩

/-- `duplicate_uuids[uuid] = []` if absent, then
`duplicate_uuids[uuid].append(name)` (vm_collector.py lines 119-121). -/
def addDup : List (String × List String) → String → String → List (String × List String)
  | [], uuid, name => [(uuid, [name])]
  | (k, v) :: rest, uuid, name =>
    if k = uuid then (k, v ++ [name]) :: rest
    else (k, v) :: addDup rest uuid name

/-- Lookup in the duplicates map. -/
def dupLookup : List (String × List String) → String → Option (List String)
  | [], _ => none
  | (k, v) :: rest, u => if k = u then some v else dupLookup rest u

/-- `VMCollector._is_duplicate_uuid` (vm_collector.py lines 106-125):
returns whether the record is a duplicate, together with the updated
ledger.  An empty UUID is never a duplicate and never recorded; a UUID
already seen gets the record's name appended under it; a new UUID is added
to the seen-set. -/
def registerAndCheckDuplicate (uuid name : String) (l : DuplicateLedger) :
    Bool × DuplicateLedger :=
  if uuid ≠ "" ∧ uuid ∈ l.seen then
    (true, { l with duplicates := addDup l.duplicates uuid name })
  else if uuid ≠ "" then
    (false, { l with seen := uuid :: l.seen })
  else
    (false, l)

/-- The ledger invariant: every UUID with a duplicates entry has already
been accepted (is in the seen-set), and every duplicates list is
non-empty. -/
def LedgerInv (l : DuplicateLedger) : Prop :=
  ∀ k v, (k, v) ∈ l.duplicates → k ∈ l.seen ∧ v ≠ []

/-- The VM processing loop of `VCenterOrchestrator` (vcenter_orchestrator.py
lines 116-133), restricted to which records survive and how the ledger
evolves: per record, in order, (1) skip-list check, (2) powered-off /
guest-not-running check, (3) empty-primary-IP check, (4) duplicate-UUID
check; a record is emitted only if it clears all four. -/
def filterAndDedupFrom :
    List InventoryRecord → List String → DuplicateLedger →
    List InventoryRecord × DuplicateLedger
  | [], _, l => ([], l)
  | r :: rs, pats, l =>
    if shouldSkipByName r.name pats then
      filterAndDedupFrom rs pats l
    else if r.powerState = "poweredOff" ∨ r.guestState = some "notRunning" then
      filterAndDedupFrom rs pats l
    else if r.primaryIpAddress = "" then
      filterAndDedupFrom rs pats l
    else
      let step := registerAndCheckDuplicate r.uuid r.name l
      if step.1 then
        filterAndDedupFrom rs pats step.2
      else
        let rec2 := filterAndDedupFrom rs pats step.2
        (r :: rec2.1, rec2.2)

/-- A whole collection run starts from the empty ledger. -/
def filterAndDeduplicate (rs : List InventoryRecord) (patterns : List String) :
    List InventoryRecord × DuplicateLedger :=
  filterAndDedupFrom rs patterns emptyLedger

/-- The non-empty UUIDs of a record list, in order. -/
def nonEmptyUuids (rs : List InventoryRecord) : List String :=
  (rs.map fun r => r.uuid).filter fun u => u ≠ ""

/-- The sampling plan: sample count, tier label, interval id in seconds. -/
structure SamplingPlan where
  sampleCount : Int
  intervalLabel : String
  intervalSeconds : Int
deriving DecidableEq

/-- `PerformanceCollector._determine_sampling_parameters`
(performance_collector.py lines 211-247).  Python `//` is floor division,
i.e. `Int.fdiv`. -/
def selectSamplingPlan (windowMinutes : Int) : SamplingPlan :=
  if windowMinutes ≤ 60 then
    ⟨(windowMinutes * 60).fdiv 20, "20-second real-time", 20⟩
  else if windowMinutes ≤ 1440 then
    ⟨windowMinutes.fdiv 5, "5-minute short-term", 300⟩
  else if windowMinutes ≤ 10080 then
    ⟨windowMinutes.fdiv 30, "30-minute medium-term", 1800⟩
  else if windowMinutes ≤ 43200 then
    ⟨windowMinutes.fdiv 120, "2-hour long-term", 7200⟩
  else
    ⟨windowMinutes.fdiv 1440, "1-day historical", 86400⟩

/-- Test vector: exact literal skip. -/
theorem vec_skip_exact : shouldSkipByName "vm01" ["vm01"] = true := rfl

/-- Test vector: a literal pattern does not skip a different name. -/
theorem vec_skip_exact_neg : shouldSkipByName "vm02" ["vm01"] = false := rfl

/-- Test vector: wildcard pattern skip. -/
theorem vec_skip_wildcard : shouldSkipByName "test-vm-03" ["test-*"] = true := rfl

/-- Test vector: the empty pattern list never skips. -/
theorem vec_skip_empty : shouldSkipByName "anything" [] = false := rfl

/-- Test vector: a star does not cross a newline (Python `.` semantics). -/
theorem vec_star_newline : matchesPattern "a\nb" "a*b" = false := rfl

/-- Test vector: a star crosses ordinary characters. -/
theorem vec_star_plain : matchesPattern "aXb" "a*b" = true := rfl

/-- Test vector: 30-minute window, real-time tier. -/
theorem vec_plan_30 : selectSamplingPlan 30 = ⟨90, "20-second real-time", 20⟩ := rfl

/-- Test vector: 240-minute window, short-term tier. -/
theorem vec_plan_240 : selectSamplingPlan 240 = ⟨48, "5-minute short-term", 300⟩ := rfl

/-- Test vector: 2880-minute window, medium-term tier. -/
theorem vec_plan_2880 : selectSamplingPlan 2880 = ⟨96, "30-minute medium-term", 1800⟩ := rfl

/-- Test vector: 14400-minute window, long-term tier. -/
theorem vec_plan_14400 : selectSamplingPlan 14400 = ⟨120, "2-hour long-term", 7200⟩ := rfl

/-- Test vector: 50000-minute window, historical tier. -/
theorem vec_plan_50000 : selectSamplingPlan 50000 = ⟨34, "1-day historical", 86400⟩ := rfl

/-! ### List and substring lemmas -/

theorem beginsWith_iff (n h : List Char) : beginsWith n h = true ↔ ∃ t, h = n ++ t := by
  induction n generalizing h with
  | nil => simp [beginsWith]
  | cons a as ih =>
    cases h with
    | nil => simp [beginsWith]
    | cons b bs =>
      simp only [beginsWith, Bool.and_eq_true, decide_eq_true_eq, ih, List.cons_append]
      constructor
      · rintro ⟨rfl, t, rfl⟩; exact ⟨t, rfl⟩
      · rintro ⟨t, h1⟩
        rw [List.cons.injEq] at h1
        exact ⟨h1.1.symm, t, h1.2⟩

theorem mem_splits (s : List Char) (pr : List Char × List Char) :
    pr ∈ splits s ↔ s = pr.1 ++ pr.2 := by
  induction s generalizing pr with
  | nil =>
    cases pr with
    | mk a b => simp [splits]
  | cons c t ih =>
    cases pr with
    | mk a b =>
      simp only [splits, List.mem_cons, List.mem_map, Prod.mk.injEq, ih]
      cases a with
      | nil => simp [eq_comm]
      | cons x xs =>
        simp only [List.cons_append, List.cons.injEq]
        constructor
        · rintro (⟨h1, h2⟩ | ⟨⟨u, v⟩, huv, h1, h2⟩)
          · exact absurd h1 (by simp)
          · simp at h1 h2
            obtain ⟨rfl, rfl⟩ := h1
            subst h2
            exact ⟨rfl, huv⟩
        · rintro ⟨rfl, h2⟩
          exact Or.inr ⟨⟨xs, b⟩, h2, by simp⟩

theorem splits_any_iff (s : List Char) (q : List Char × List Char → Bool) :
    ((splits s).any q = true) ↔ ∃ u v, s = u ++ v ∧ q (u, v) = true := by
  simp only [List.any_eq_true]
  constructor
  · rintro ⟨⟨u, v⟩, hm, hq⟩
    exact ⟨u, v, (mem_splits s ⟨u, v⟩).mp hm, hq⟩
  · rintro ⟨u, v, h, hq⟩
    exact ⟨⟨u, v⟩, (mem_splits s ⟨u, v⟩).mpr h, hq⟩

theorem containsSub_iff (hay needle : List Char) :
    containsSub hay needle = true ↔ ∃ pre suf, hay = pre ++ needle ++ suf := by
  unfold containsSub
  rw [splits_any_iff]
  constructor
  · rintro ⟨u, v, rfl, hb⟩
    obtain ⟨t, rfl⟩ := (beginsWith_iff needle v).mp hb
    exact ⟨u, t, by simp⟩
  · rintro ⟨pre, suf, rfl⟩
    exact ⟨pre, needle ++ suf, by simp, (beginsWith_iff needle _).mpr ⟨suf, rfl⟩⟩

/-! ### Correctness of the regex matcher -/

theorem matchStar_iff (f : List Char → Bool) (g : Char → Bool) (s : List Char) :
    matchStar f g s = true ↔
      ∃ u t, s = u ++ t ∧ (∀ x ∈ u, g x = true) ∧ f t = true := by
  induction s with
  | nil =>
    simp only [matchStar]
    constructor
    · intro hf; exact ⟨[], [], rfl, by simp, hf⟩
    · rintro ⟨u, t, h, _, hf⟩
      obtain ⟨rfl, rfl⟩ := List.append_eq_nil.mp h.symm
      exact hf
  | cons d s ih =>
    simp only [matchStar, Bool.or_eq_true, Bool.and_eq_true, ih]
    constructor
    · rintro (hf | ⟨hg, u, t, rfl, hu, hf⟩)
      · exact ⟨[], d :: s, rfl, by simp, hf⟩
      · exact ⟨d :: u, t, rfl, by simpa using ⟨hg, hu⟩, hf⟩
    · rintro ⟨u, t, hs, hu, hf⟩
      cases u with
      | nil => subst hs; exact Or.inl hf
      | cons x xs =>
        rw [List.cons_append, List.cons.injEq] at hs
        obtain ⟨rfl, rfl⟩ := hs
        exact Or.inr ⟨hu _ (List.mem_cons_self _ _), xs, t, rfl,
          fun y hy => hu y (List.mem_cons_of_mem _ hy), hf⟩

theorem matchItems_iff (r : List RItem) (s : List Char) :
    matchItems r s = true ↔ RMatch r s := by
  induction r generalizing s with
  | nil => cases s <;> simp [matchItems, RMatch]
  | cons i rest ih =>
    cases i with
    | once a =>
      cases s with
      | nil => simp [matchItems, RMatch]
      | cons d t =>
        simp only [matchItems, Bool.and_eq_true, RMatch, ih]
        constructor
        · rintro ⟨ha, hm⟩; exact ⟨d, t, rfl, ha, hm⟩
        · rintro ⟨c, t', h, ha, hm⟩
          rw [List.cons.injEq] at h
          obtain ⟨rfl, rfl⟩ := h
          exact ⟨ha, hm⟩
    | star a =>
      simp only [matchItems, RMatch, matchStar_iff]
      constructor
      · rintro ⟨u, t, rfl, hu, hf⟩; exact ⟨u, t, rfl, hu, (ih t).mp hf⟩
      · rintro ⟨u, t, rfl, hu, hm⟩; exact ⟨u, t, rfl, hu, (ih t).mpr hm⟩

theorem reSearch_iff (r : List RItem) (s : List Char) :
    reSearch r s = true ↔ ∃ pre mid suf, s = pre ++ mid ++ suf ∧ RMatch r mid := by
  unfold reSearch
  rw [splits_any_iff]
  constructor
  · rintro ⟨u, v, rfl, hv⟩
    rw [splits_any_iff] at hv
    obtain ⟨m, w, rfl, hm⟩ := hv
    exact ⟨u, m, w, by simp, (matchItems_iff r m).mp hm⟩
  · rintro ⟨pre, mid, suf, rfl, hm⟩
    exact ⟨pre, mid ++ suf, by simp, by
      rw [splits_any_iff]
      exact ⟨mid, suf, rfl, (matchItems_iff r mid).mpr hm⟩⟩

/-! ### The escaped pattern always compiles, to the expected items -/

theorem reEscape_ne_star_cons (p : List Char) : ∀ t, reEscape p ≠ '*' :: t := by
  cases p with
  | nil => intro t h; exact List.noConfusion h
  | cons c p =>
    intro t h
    by_cases hsp : c ∈ pySpecial
    · rw [reEscape, if_pos hsp] at h
      exact absurd (List.head_eq_of_cons_eq h) (by decide)
    · rw [reEscape, if_neg hsp] at h
      have : c = '*' := List.head_eq_of_cons_eq h
      subst this
      exact hsp (by decide)

theorem replStar_cons (c : Char) (R : List Char) (h : c ≠ '\\' ∨ ∀ t, R ≠ '*' :: t) :
    replStar (c :: R) = c :: replStar R := by
  cases R with
  | nil => rfl
  | cons d R2 =>
    have hcd : ¬(c = '\\' ∧ d = '*') := by
      rintro ⟨rfl, rfl⟩
      rcases h with h | h
      · exact h rfl
      · exact h R2 rfl
    rw [replStar, if_neg hcd]

theorem parseRe_cons (acc : List RItem) (c : Char) (R : List Char) :
    parseRe acc (c :: R) =
      (if c = '\\' then
        (match R with
         | [] => none
         | d :: R2 => parseRe (RItem.once (RAtom.lit d) :: acc) R2)
      else if c = '.' then
        parseRe (RItem.once RAtom.dot :: acc) R
      else if c = '*' then
        (match acc with
         | RItem.once a :: acc2 => parseRe (RItem.star a :: acc2) R
         | _ => none)
      else if rawSpecial c then
        none
      else
        parseRe (RItem.once (RAtom.lit c) :: acc) R) := by
  rw [parseRe.eq_def]

theorem replStar_reEscape_cons (c : Char) (p : List Char) :
    replStar (reEscape (c :: p)) =
      (if c = '*' then ['.', '*']
       else if c ∈ pySpecial then ['\\', c]
       else [c]) ++ replStar (reEscape p) := by
  by_cases hstar : c = '*'
  · subst hstar
    rw [if_pos rfl, reEscape, if_pos (by decide)]
    show replStar ('\\' :: '*' :: reEscape p) = '.' :: '*' :: replStar (reEscape p)
    rw [replStar, if_pos ⟨rfl, rfl⟩]
  · by_cases hsp : c ∈ pySpecial
    · rw [if_neg hstar, if_pos hsp, reEscape, if_pos hsp]
      show replStar ('\\' :: c :: reEscape p) = '\\' :: c :: replStar (reEscape p)
      rw [replStar, if_neg (by rintro ⟨-, h⟩; exact hstar h)]
      rw [replStar_cons c (reEscape p) (Or.inr (reEscape_ne_star_cons p))]
    · rw [if_neg hstar, if_neg hsp, reEscape, if_neg hsp]
      show replStar (c :: reEscape p) = c :: replStar (reEscape p)
      rw [replStar_cons c (reEscape p) (Or.inl (by intro h; subst h; exact hsp (by decide)))]

theorem parse_transform (p : List Char) :
    ∀ acc, parseRe acc (replStar (reEscape p)) = some (acc.reverse ++ itemsOf p) := by
  induction p with
  | nil => intro acc; simp [reEscape, replStar, parseRe, itemsOf]
  | cons c p ih =>
    intro acc
    rw [replStar_reEscape_cons]
    by_cases hstar : c = '*'
    · subst hstar
      rw [if_pos rfl]
      show parseRe acc ('.' :: '*' :: replStar (reEscape p)) = _
      rw [parseRe_cons, if_neg (by decide), if_pos rfl]
      rw [parseRe_cons, if_neg (by decide), if_neg (by decide), if_pos rfl]
      show parseRe (RItem.star RAtom.dot :: acc) (replStar (reEscape p)) = _
      rw [ih]
      simp [itemsOf]
    · by_cases hsp : c ∈ pySpecial
      · rw [if_neg hstar, if_pos hsp]
        show parseRe acc ('\\' :: c :: replStar (reEscape p)) = _
        rw [parseRe_cons, if_pos rfl]
        show parseRe (RItem.once (RAtom.lit c) :: acc) (replStar (reEscape p)) = _
        rw [ih]
        simp [itemsOf, hstar]
      · rw [if_neg hstar, if_neg hsp]
        show parseRe acc (c :: replStar (reEscape p)) = _
        have h1 : c ≠ '\\' := by intro h; subst h; exact hsp (by decide)
        have h2 : c ≠ '.' := by intro h; subst h; exact hsp (by decide)
        have h3 : rawSpecial c = false := by
          rw [rawSpecial, decide_eq_false_iff_not]
          intro hr
          apply hsp
          fin_cases hr <;> decide
        rw [parseRe_cons, if_neg h1, if_neg h2, if_neg hstar, h3]
        rw [if_neg (by simp)]
        rw [ih]
        simp [itemsOf, hstar]

/-! ### The compiled regex means exactly the wildcard semantics -/

theorem itemsOf_cons (c : Char) (p : List Char) :
    itemsOf (c :: p) =
      (if c = '*' then RItem.star RAtom.dot else RItem.once (RAtom.lit c)) :: itemsOf p := rfl

theorem GlobCode_cons (c : Char) (p s : List Char) :
    GlobCode (c :: p) s =
      (if c = '*' then ∃ g t, s = g ++ t ∧ (∀ x ∈ g, x ≠ '\n') ∧ GlobCode p t
       else ∃ t, s = c :: t ∧ GlobCode p t) := by
  rw [GlobCode.eq_def]

theorem GlobSpec_cons (c : Char) (p s : List Char) :
    GlobSpec (c :: p) s =
      (if c = '*' then ∃ g t, s = g ++ t ∧ GlobSpec p t
       else ∃ t, s = c :: t ∧ GlobSpec p t) := by
  rw [GlobSpec.eq_def]

theorem RMatch_itemsOf (p s : List Char) : RMatch (itemsOf p) s ↔ GlobCode p s := by
  induction p generalizing s with
  | nil => simp [itemsOf, RMatch, GlobCode]
  | cons c p ih =>
    by_cases hstar : c = '*'
    · subst hstar
      rw [itemsOf_cons, if_pos rfl, GlobCode_cons, if_pos rfl]
      simp only [RMatch]
      constructor
      · rintro ⟨u, t, rfl, hu, hm⟩
        exact ⟨u, t, rfl, fun x hx => by simpa [matchAtom] using hu x hx, (ih t).mp hm⟩
      · rintro ⟨g, t, rfl, hg, hm⟩
        exact ⟨g, t, rfl, fun x hx => by simp [matchAtom, hg x hx], (ih t).mpr hm⟩
    · rw [itemsOf_cons, if_neg hstar, GlobCode_cons, if_neg hstar]
      simp only [RMatch]
      constructor
      · rintro ⟨d, t, rfl, ha, hm⟩
        have : c = d := by simpa [matchAtom] using ha
        subst this
        exact ⟨t, rfl, (ih t).mp hm⟩
      · rintro ⟨t, rfl, hm⟩
        exact ⟨c, t, rfl, by simp [matchAtom], (ih t).mpr hm⟩

theorem matchesPattern_meta (name pat : String) (h : hasMeta pat = true) :
    matchesPattern name pat = reSearch (itemsOf pat.data) name.data := by
  unfold matchesPattern matchesPatternWith regexEngine
  rw [if_pos h, parse_transform]
  rfl

theorem matchesPattern_lit (name pat : String) (h : hasMeta pat = false) :
    matchesPattern name pat = (name == pat) := by
  unfold matchesPattern matchesPatternWith
  rw [h]
  simp

theorem matchesPattern_iff_glob (name pat : String) (h : hasMeta pat = true) :
    matchesPattern name pat = true ↔
      ∃ pre mid suf, name.data = pre ++ mid ++ suf ∧ GlobCode pat.data mid := by
  rw [matchesPattern_meta name pat h, reSearch_iff]
  constructor
  · rintro ⟨a, b, c, h1, h2⟩
    exact ⟨a, b, c, h1, (RMatch_itemsOf _ _).mp h2⟩
  · rintro ⟨a, b, c, h1, h2⟩
    exact ⟨a, b, c, h1, (RMatch_itemsOf _ _).mpr h2⟩

/-! ### Ledger lemmas -/

theorem register_empty_uuid (n : String) (l : DuplicateLedger) :
    registerAndCheckDuplicate "" n l = (false, l) := by
  unfold registerAndCheckDuplicate
  rw [if_neg (by rintro ⟨h, -⟩; exact h rfl), if_neg (by intro h; exact h rfl)]

theorem register_dup (u n : String) (l : DuplicateLedger)
    (h1 : u ≠ "") (h2 : u ∈ l.seen) :
    registerAndCheckDuplicate u n l = (true, ⟨l.seen, addDup l.duplicates u n⟩) := by
  unfold registerAndCheckDuplicate
  rw [if_pos ⟨h1, h2⟩]

theorem register_new (u n : String) (l : DuplicateLedger)
    (h1 : u ≠ "") (h2 : u ∉ l.seen) :
    registerAndCheckDuplicate u n l = (false, ⟨u :: l.seen, l.duplicates⟩) := by
  unfold registerAndCheckDuplicate
  rw [if_neg (by rintro ⟨-, h⟩; exact h2 h), if_pos h1]

theorem dupLookup_addDup (d : List (String × List String)) (u n : String) :
    dupLookup (addDup d u n) u = some ((dupLookup d u).getD [] ++ [n]) := by
  induction d with
  | nil => simp [addDup, dupLookup]
  | cons kv rest ih =>
    cases kv with
    | mk k v =>
      by_cases hk : k = u
      · subst hk
        rw [addDup, if_pos rfl, dupLookup, if_pos rfl, dupLookup, if_pos rfl]
        simp
      · rw [addDup, if_neg hk, dupLookup, if_neg hk, dupLookup, if_neg hk, ih]

theorem addDup_extends (d : List (String × List String)) (u n k : String)
    (v : List String) (h : (k, v) ∈ d) :
    ∃ w, (k, v ++ w) ∈ addDup d u n := by
  induction d with
  | nil => cases h
  | cons kv rest ih =>
    cases kv with
    | mk k0 v0 =>
      by_cases hk : k0 = u
      · subst hk
        rw [addDup, if_pos rfl]
        rcases List.mem_cons.mp h with heq | hmem
        · rw [Prod.mk.injEq] at heq
          obtain ⟨rfl, rfl⟩ := heq
          exact ⟨[n], List.mem_cons_self _ _⟩
        · exact ⟨[], by simpa using Or.inr hmem⟩
      · rw [addDup, if_neg hk]
        rcases List.mem_cons.mp h with heq | hmem
        · exact ⟨[], by simp [heq]⟩
        · obtain ⟨w, hw⟩ := ih hmem
          exact ⟨w, List.mem_cons_of_mem _ hw⟩

theorem addDup_mem_inv (d : List (String × List String)) (u n k : String)
    (w : List String) (h : (k, w) ∈ addDup d u n) :
    (∃ v, (k, v) ∈ d ∧ (w = v ∨ w = v ++ [n])) ∨ (k = u ∧ w = [n]) := by
  induction d with
  | nil =>
    rw [addDup] at h
    rcases List.mem_singleton.mp h with heq
    rw [Prod.mk.injEq] at heq
    exact Or.inr ⟨heq.1, heq.2⟩
  | cons kv rest ih =>
    cases kv with
    | mk k0 v0 =>
      by_cases hk : k0 = u
      · subst hk
        rw [addDup, if_pos rfl] at h
        rcases List.mem_cons.mp h with heq | hmem
        · rw [Prod.mk.injEq] at heq
          obtain ⟨rfl, rfl⟩ := heq
          exact Or.inl ⟨v0, List.mem_cons_self _ _, Or.inr rfl⟩
        · exact Or.inl ⟨w, List.mem_cons_of_mem _ hmem, Or.inl rfl⟩
      · rw [addDup, if_neg hk] at h
        rcases List.mem_cons.mp h with heq | hmem
        · rw [Prod.mk.injEq] at heq
          exact Or.inl ⟨w, by rw [← heq.1, ← heq.2]; exact List.mem_cons_self _ _, Or.inl rfl⟩
        · rcases ih hmem with ⟨v, hv, hw⟩ | ⟨rfl, rfl⟩
          · exact Or.inl ⟨v, List.mem_cons_of_mem _ hv, hw⟩
          · exact Or.inr ⟨rfl, rfl⟩

/-! ### One-step unfolding of the processing loop -/

theorem fdd_nil (pats : List String) (l : DuplicateLedger) :
    filterAndDedupFrom [] pats l = ([], l) := rfl

theorem fdd_cons (r : InventoryRecord) (rs : List InventoryRecord)
    (pats : List String) (l : DuplicateLedger) :
    filterAndDedupFrom (r :: rs) pats l =
      (if shouldSkipByName r.name pats then filterAndDedupFrom rs pats l
       else if r.powerState = "poweredOff" ∨ r.guestState = some "notRunning" then
         filterAndDedupFrom rs pats l
       else if r.primaryIpAddress = "" then filterAndDedupFrom rs pats l
       else if (registerAndCheckDuplicate r.uuid r.name l).1 then
         filterAndDedupFrom rs pats (registerAndCheckDuplicate r.uuid r.name l).2
       else
         (r :: (filterAndDedupFrom rs pats (registerAndCheckDuplicate r.uuid r.name l).2).1,
          (filterAndDedupFrom rs pats (registerAndCheckDuplicate r.uuid r.name l).2).2)) := by
  rw [filterAndDedupFrom.eq_def]

/-! ### Invariants of the filtered output -/

theorem nonEmptyUuids_nil : nonEmptyUuids [] = [] := rfl

theorem nonEmptyUuids_cons (r : InventoryRecord) (rs : List InventoryRecord) :
    nonEmptyUuids (r :: rs) =
      if r.uuid = "" then nonEmptyUuids rs else r.uuid :: nonEmptyUuids rs := by
  by_cases h : r.uuid = ""
  · simp [nonEmptyUuids, h]
  · simp [nonEmptyUuids, h]

theorem fdd_kept_passes (rs : List InventoryRecord) (pats : List String) :
    ∀ l r, r ∈ (filterAndDedupFrom rs pats l).1 →
      shouldSkipByName r.name pats = false ∧
      ¬(r.powerState = "poweredOff" ∨ r.guestState = some "notRunning") ∧
      r.primaryIpAddress ≠ "" := by
  induction rs with
  | nil => intro l r h; rw [fdd_nil] at h; cases h
  | cons r0 rs ih =>
    intro l r h
    rw [fdd_cons] at h
    by_cases h1 : shouldSkipByName r0.name pats
    · rw [if_pos h1] at h; exact ih l r h
    rw [if_neg h1] at h
    by_cases h2 : r0.powerState = "poweredOff" ∨ r0.guestState = some "notRunning"
    · rw [if_pos h2] at h; exact ih l r h
    rw [if_neg h2] at h
    by_cases h3 : r0.primaryIpAddress = ""
    · rw [if_pos h3] at h; exact ih l r h
    rw [if_neg h3] at h
    by_cases h4 : (registerAndCheckDuplicate r0.uuid r0.name l).1
    · rw [if_pos h4] at h; exact ih _ r h
    · rw [if_neg h4] at h
      rcases List.mem_cons.mp h with rfl | hmem
      · exact ⟨Bool.eq_false_iff.mpr h1, h2, h3⟩
      · exact ih _ r hmem

theorem fdd_kept_uuids (rs : List InventoryRecord) (pats : List String) :
    ∀ l, (∀ u ∈ nonEmptyUuids (filterAndDedupFrom rs pats l).1, u ∉ l.seen) ∧
      (nonEmptyUuids (filterAndDedupFrom rs pats l).1).Nodup := by
  induction rs with
  | nil => intro l; rw [fdd_nil]; simp [nonEmptyUuids_nil]
  | cons r0 rs ih =>
    intro l
    rw [fdd_cons]
    by_cases h1 : shouldSkipByName r0.name pats
    · rw [if_pos h1]; exact ih l
    rw [if_neg h1]
    by_cases h2 : r0.powerState = "poweredOff" ∨ r0.guestState = some "notRunning"
    · rw [if_pos h2]; exact ih l
    rw [if_neg h2]
    by_cases h3 : r0.primaryIpAddress = ""
    · rw [if_pos h3]; exact ih l
    rw [if_neg h3]
    by_cases hu : r0.uuid = ""
    · rw [hu, register_empty_uuid]
      simp only [if_neg Bool.false_ne_true]
      rw [nonEmptyUuids_cons, if_pos hu]
      exact ih l
    · by_cases hseen : r0.uuid ∈ l.seen
      · rw [register_dup _ _ _ hu hseen]
        simp only [if_pos rfl]
        exact ih ⟨l.seen, addDup l.duplicates r0.uuid r0.name⟩
      · rw [register_new _ _ _ hu hseen]
        simp only [if_neg Bool.false_ne_true]
        rw [nonEmptyUuids_cons, if_neg hu]
        obtain ⟨hdisj, hnd⟩ := ih ⟨r0.uuid :: l.seen, l.duplicates⟩
        constructor
        · intro u hu2
          rcases List.mem_cons.mp hu2 with rfl | hmem
          · exact hseen
          · intro hin
            exact hdisj u hmem (List.mem_cons_of_mem _ hin)
        · refine List.nodup_cons.mpr ⟨?_, hnd⟩
          intro hin
          exact hdisj r0.uuid hin (List.mem_cons_self _ _)

theorem fdd_pass_through (rs : List InventoryRecord) (pats : List String) :
    ∀ l,
      (∀ r ∈ rs, shouldSkipByName r.name pats = false ∧
        ¬(r.powerState = "poweredOff" ∨ r.guestState = some "notRunning") ∧
        r.primaryIpAddress ≠ "") →
      (∀ u ∈ nonEmptyUuids rs, u ∉ l.seen) →
      (nonEmptyUuids rs).Nodup →
      (filterAndDedupFrom rs pats l).1 = rs ∧
      (filterAndDedupFrom rs pats l).2.duplicates = l.duplicates := by
  induction rs with
  | nil => intro l _ _ _; rw [fdd_nil]; exact ⟨rfl, rfl⟩
  | cons r0 rs ih =>
    intro l hpass hdisj hnd
    obtain ⟨hp1, hp2, hp3⟩ := hpass r0 (List.mem_cons_self _ _)
    rw [fdd_cons, if_neg (by rw [hp1]; exact Bool.false_ne_true), if_neg hp2, if_neg hp3]
    by_cases hu : r0.uuid = ""
    · rw [hu, register_empty_uuid]
      simp only [if_neg Bool.false_ne_true]
      have hdisj2 : ∀ u ∈ nonEmptyUuids rs, u ∉ l.seen := by
        intro u hm
        apply hdisj u
        rw [nonEmptyUuids_cons, if_pos hu]
        exact hm
      have hnd2 : (nonEmptyUuids rs).Nodup := by
        rw [nonEmptyUuids_cons, if_pos hu] at hnd
        exact hnd
      obtain ⟨hk, hd⟩ := ih l (fun r hr => hpass r (List.mem_cons_of_mem _ hr)) hdisj2 hnd2
      exact ⟨by rw [hk], hd⟩
    · have hseen : r0.uuid ∉ l.seen := by
        apply hdisj
        rw [nonEmptyUuids_cons, if_neg hu]
        exact List.mem_cons_self _ _
      rw [register_new _ _ _ hu hseen]
      simp only [if_neg Bool.false_ne_true]
      rw [nonEmptyUuids_cons, if_neg hu] at hdisj hnd
      have hnd2 := List.nodup_cons.mp hnd
      have hdisj2 : ∀ u ∈ nonEmptyUuids rs,
          u ∉ (⟨r0.uuid :: l.seen, l.duplicates⟩ : DuplicateLedger).seen := by
        intro u hm hin
        rcases List.mem_cons.mp hin with rfl | hin2
        · exact hnd2.1 hm
        · exact hdisj u (List.mem_cons_of_mem _ hm) hin2
      obtain ⟨hk, hd⟩ :=
        ih ⟨r0.uuid :: l.seen, l.duplicates⟩
          (fun r hr => hpass r (List.mem_cons_of_mem _ hr)) hdisj2 hnd2.2
      exact ⟨by rw [hk], hd⟩

/-! ### Arithmetic helper for the sampling selector -/

theorem one_le_fdiv {a b : Int} (hb : 0 < b) (h : b ≤ a) : 1 ≤ a.fdiv b := by
  obtain ⟨m, rfl⟩ := Int.eq_ofNat_of_zero_le (le_trans hb.le h)
  obtain ⟨k, rfl⟩ := Int.eq_ofNat_of_zero_le hb.le
  rw [← Int.ofNat_fdiv]
  have hk : 0 < k := by exact_mod_cast hb
  have hmk : k ≤ m := by exact_mod_cast h
  exact_mod_cast (Nat.one_le_div_iff hk).mpr hmk

/-! ### Additional unfolding lemmas for the spec-level glob predicates -/

theorem GlobSpec_nil (s : List Char) : GlobSpec [] s = (s = []) := by
  rw [GlobSpec.eq_def]

theorem GlobCode_nil (s : List Char) : GlobCode [] s = (s = []) := by
  rw [GlobCode.eq_def]

/-! ### The claims -/

/-- Claim C1: the VM processing loop applies, per record and in this order
with per-record short-circuit, (1) the name-pattern skip check, (2) the
running-state check (`powerState` is not "poweredOff" and `guestState` is
not "notRunning"), (3) the non-empty primary-IP check, (4) the
duplicate-UUID check; a record is kept iff it clears all four; drops by
checks (1)-(3) leave the ledger unchanged, and only check-(4) drops are
recorded in the ledger (while a fresh UUID is added to the seen-set). -/
theorem claim_C1 (patterns : List String) (r : InventoryRecord)
    (rs : List InventoryRecord) (ledger : DuplicateLedger) :
    (filterAndDedupFrom [] patterns ledger = ([], ledger))
    ∧ (shouldSkipByName r.name patterns = true →
        filterAndDedupFrom (r :: rs) patterns ledger = filterAndDedupFrom rs patterns ledger)
    ∧ (shouldSkipByName r.name patterns = false →
        (r.powerState = "poweredOff" ∨ r.guestState = some "notRunning") →
        filterAndDedupFrom (r :: rs) patterns ledger = filterAndDedupFrom rs patterns ledger)
    ∧ (shouldSkipByName r.name patterns = false →
        r.powerState ≠ "poweredOff" → r.guestState ≠ some "notRunning" →
        r.primaryIpAddress = "" →
        filterAndDedupFrom (r :: rs) patterns ledger = filterAndDedupFrom rs patterns ledger)
    ∧ (shouldSkipByName r.name patterns = false →
        r.powerState ≠ "poweredOff" → r.guestState ≠ some "notRunning" →
        r.primaryIpAddress ≠ "" → r.uuid ≠ "" → r.uuid ∈ ledger.seen →
        filterAndDedupFrom (r :: rs) patterns ledger =
          filterAndDedupFrom rs patterns
            ⟨ledger.seen, addDup ledger.duplicates r.uuid r.name⟩)
    ∧ (shouldSkipByName r.name patterns = false →
        r.powerState ≠ "poweredOff" → r.guestState ≠ some "notRunning" →
        r.primaryIpAddress ≠ "" → r.uuid = "" →
        filterAndDedupFrom (r :: rs) patterns ledger =
          (r :: (filterAndDedupFrom rs patterns ledger).1,
           (filterAndDedupFrom rs patterns ledger).2))
    ∧ (shouldSkipByName r.name patterns = false →
        r.powerState ≠ "poweredOff" → r.guestState ≠ some "notRunning" →
        r.primaryIpAddress ≠ "" → r.uuid ≠ "" → r.uuid ∉ ledger.seen →
        filterAndDedupFrom (r :: rs) patterns ledger =
          (r :: (filterAndDedupFrom rs patterns ⟨r.uuid :: ledger.seen, ledger.duplicates⟩).1,
           (filterAndDedupFrom rs patterns ⟨r.uuid :: ledger.seen, ledger.duplicates⟩).2)) := by
  refine ⟨fdd_nil _ _, ?_, ?_, ?_, ?_, ?_, ?_⟩
  · intro h1
    rw [fdd_cons, if_pos h1]
  · intro h1 h2
    rw [fdd_cons, if_neg (by rw [h1]; exact Bool.false_ne_true), if_pos h2]
  · intro h1 hp hg h3
    rw [fdd_cons, if_neg (by rw [h1]; exact Bool.false_ne_true),
      if_neg (not_or.mpr ⟨hp, hg⟩), if_pos h3]
  · intro h1 hp hg h3 hu hs
    rw [fdd_cons, if_neg (by rw [h1]; exact Bool.false_ne_true),
      if_neg (not_or.mpr ⟨hp, hg⟩), if_neg h3, register_dup _ _ _ hu hs]
    simp
  · intro h1 hp hg h3 hu
    rw [fdd_cons, if_neg (by rw [h1]; exact Bool.false_ne_true),
      if_neg (not_or.mpr ⟨hp, hg⟩), if_neg h3, hu, register_empty_uuid]
    simp only [if_neg Bool.false_ne_true]
  · intro h1 hp hg h3 hu hs
    rw [fdd_cons, if_neg (by rw [h1]; exact Bool.false_ne_true),
      if_neg (not_or.mpr ⟨hp, hg⟩), if_neg h3, register_new _ _ _ hu hs]
    simp only [if_neg Bool.false_ne_true]

/-- Witness for C1 at a concrete input: a record whose name matches the
skip list exactly is dropped without touching the ledger. -/
theorem claim_C1_witness :
    filterAndDedupFrom [⟨"vm01", "u-1", "10.0.0.1", "poweredOn", none⟩] ["vm01"] emptyLedger
      = filterAndDedupFrom [] ["vm01"] emptyLedger :=
  (claim_C1 ["vm01"] ⟨"vm01", "u-1", "10.0.0.1", "poweredOn", none⟩ [] emptyLedger).2.1 rfl

/-- Claim C2: the sampling selector implements the five-tier table with
upper bounds inclusive and floor division; in particular 60 minutes uses
the 20-second real-time tier and 61 minutes the 300-second short-term
tier. -/
theorem claim_C2 (w : Int) (h : 1 ≤ w) :
    (w ≤ 60 → selectSamplingPlan w = ⟨(w * 60).fdiv 20, "20-second real-time", 20⟩)
    ∧ (60 < w → w ≤ 1440 → selectSamplingPlan w = ⟨w.fdiv 5, "5-minute short-term", 300⟩)
    ∧ (1440 < w → w ≤ 10080 →
        selectSamplingPlan w = ⟨w.fdiv 30, "30-minute medium-term", 1800⟩)
    ∧ (10080 < w → w ≤ 43200 →
        selectSamplingPlan w = ⟨w.fdiv 120, "2-hour long-term", 7200⟩)
    ∧ (43200 < w → selectSamplingPlan w = ⟨w.fdiv 1440, "1-day historical", 86400⟩)
    ∧ selectSamplingPlan 60 = ⟨180, "20-second real-time", 20⟩
    ∧ selectSamplingPlan 61 = ⟨12, "5-minute short-term", 300⟩ := by
  refine ⟨?_, ?_, ?_, ?_, ?_, rfl, rfl⟩
  · intro h1
    unfold selectSamplingPlan
    rw [if_pos h1]
  · intro h1 h2
    unfold selectSamplingPlan
    rw [if_neg (by omega), if_pos h2]
  · intro h1 h2
    unfold selectSamplingPlan
    rw [if_neg (by omega), if_neg (by omega), if_pos h2]
  · intro h1 h2
    unfold selectSamplingPlan
    rw [if_neg (by omega), if_neg (by omega), if_neg (by omega), if_pos h2]
  · intro h1
    unfold selectSamplingPlan
    rw [if_neg (by omega), if_neg (by omega), if_neg (by omega), if_neg (by omega)]

/-- Witness for C2 at the boundary inputs 60 and 61. -/
theorem claim_C2_witness :
    selectSamplingPlan 60 = ⟨180, "20-second real-time", 20⟩
    ∧ selectSamplingPlan 61 = ⟨12, "5-minute short-term", 300⟩ :=
  ⟨(claim_C2 60 (by norm_num)).2.2.2.2.2.1, (claim_C2 61 (by norm_num)).2.2.2.2.2.2⟩

/-- Claim C3: `_is_duplicate_uuid` returns false without mutating the
ledger on an empty UUID; on a previously seen UUID it returns true,
leaves the seen-set unchanged, and appends the record name to
`duplicates[uuid]` (creating the list if needed); otherwise it adds the
UUID to the seen-set and returns false.  The seen-set never loses
elements and an accepted UUID stays in it, so every later record bearing
the same non-empty UUID is rejected and its name logged. -/
theorem claim_C3 (u n : String) (l : DuplicateLedger) :
    (registerAndCheckDuplicate "" n l = (false, l))
    ∧ (u ≠ "" → u ∈ l.seen →
        (registerAndCheckDuplicate u n l).1 = true
        ∧ (registerAndCheckDuplicate u n l).2.seen = l.seen
        ∧ dupLookup (registerAndCheckDuplicate u n l).2.duplicates u
            = some (((dupLookup l.duplicates u).getD []) ++ [n]))
    ∧ (u ≠ "" → u ∉ l.seen →
        registerAndCheckDuplicate u n l = (false, ⟨u :: l.seen, l.duplicates⟩))
    ∧ (u ≠ "" → u ∈ (registerAndCheckDuplicate u n l).2.seen)
    ∧ (∀ u2 n2, ∀ x ∈ l.seen, x ∈ (registerAndCheckDuplicate u2 n2 l).2.seen) := by
  refine ⟨register_empty_uuid n l, ?_, register_new u n l, ?_, ?_⟩
  · intro h1 h2
    rw [register_dup u n l h1 h2]
    exact ⟨rfl, rfl, dupLookup_addDup l.duplicates u n⟩
  · intro h1
    by_cases h2 : u ∈ l.seen
    · rw [register_dup u n l h1 h2]
      exact h2
    · rw [register_new u n l h1 h2]
      exact List.mem_cons_self _ _
  · intro u2 n2 x hx
    by_cases hu2 : u2 = ""
    · subst hu2; rw [register_empty_uuid]; exact hx
    · by_cases hs2 : u2 ∈ l.seen
      · rw [register_dup u2 n2 l hu2 hs2]; exact hx
      · rw [register_new u2 n2 l hu2 hs2]; exact List.mem_cons_of_mem _ hx

/-- Witness for C3 at a concrete input: registering a name under an
already-seen UUID reports a duplicate, keeps the seen-set, and logs the
name. -/
theorem claim_C3_witness :
    (registerAndCheckDuplicate "u-1" "vmB" ⟨["u-1"], []⟩).1 = true
    ∧ (registerAndCheckDuplicate "u-1" "vmB" ⟨["u-1"], []⟩).2.seen = ["u-1"]
    ∧ dupLookup (registerAndCheckDuplicate "u-1" "vmB" ⟨["u-1"], []⟩).2.duplicates "u-1"
        = some ["vmB"] := by
  have h := (claim_C3 "u-1" "vmB" ⟨["u-1"], []⟩).2.1 (by decide) (List.mem_singleton.mpr rfl)
  exact ⟨h.1, h.2.1, by rw [h.2.2]; rfl⟩

/-- Claim C4, amended: `shouldSkipByName` checks patterns in order and
returns true on the first match, false if none matches (the empty list
never skips); a pattern without metacharacters matches iff the name equals
it exactly (case-sensitive); a pattern with a metacharacter is matched as
a wildcard, anywhere in the name (substring-anchored), in which every `*`
matches any sequence (including the empty one) of characters other than
the newline character and every other character is taken literally.
(The original claim let `*` match sequences containing newlines; Python's
`.` without `re.DOTALL` does not, see `claim_C4_cex`.) -/
theorem claim_C4 (name pat : String) (patterns : List String) :
    (shouldSkipByName name [] = false)
    ∧ (shouldSkipByName name (pat :: patterns)
        = (matchesPattern name pat || shouldSkipByName name patterns))
    ∧ (hasMeta pat = false → (matchesPattern name pat = true ↔ name = pat))
    ∧ (hasMeta pat = true →
        (matchesPattern name pat = true ↔
          ∃ pre mid suf, name.data = pre ++ mid ++ suf ∧ GlobCode pat.data mid)) := by
  refine ⟨rfl, rfl, ?_, matchesPattern_iff_glob name pat⟩
  intro hm
  rw [matchesPattern_lit name pat hm]
  exact beq_iff_eq

/-- Counterexample to C4 as stated: for name `"a\nb"` and wildcard pattern
`"a*b"`, the claimed semantics (`*` matches ANY sequence, including one
containing a newline, anywhere in the name) says the pattern matches, but
the code's matcher returns false, because Python's `.` (hence the `.*`
that `*` is rewritten to) does not match a newline. -/
theorem claim_C4_cex :
    hasMeta "a*b" = true
    ∧ matchesPattern "a\nb" "a*b" = false
    ∧ (∃ pre mid suf, ("a\nb" : String).data = pre ++ mid ++ suf
        ∧ GlobSpec ("a*b" : String).data mid) := by
  refine ⟨rfl, rfl, [], ['a', '\n', 'b'], [], by simp, ?_⟩
  show GlobSpec ['a', '*', 'b'] ['a', '\n', 'b']
  rw [GlobSpec_cons, if_neg (by decide)]
  refine ⟨['\n', 'b'], rfl, ?_⟩
  rw [GlobSpec_cons, if_pos rfl]
  refine ⟨['\n'], ['b'], rfl, ?_⟩
  rw [GlobSpec_cons, if_neg (by decide)]
  refine ⟨[], rfl, ?_⟩
  rw [GlobSpec_nil]

/-- Witness for C4 at a concrete input: the wildcard characterisation
applies to `"test-*"` against `"test-vm-03"`. -/
theorem claim_C4_witness :
    matchesPattern "test-vm-03" "test-*" = true ↔
      ∃ pre mid suf, ("test-vm-03" : String).data = pre ++ mid ++ suf
        ∧ GlobCode ("test-*" : String).data mid :=
  (claim_C4 "test-vm-03" "test-*" []).2.2.2 rfl

/-- Claim C5: `filterAndDeduplicate` is idempotent - re-running it on the
kept output of a previous run (each run starting from a fresh, empty
ledger) returns the same kept sequence unchanged and records no
duplicates. -/
theorem claim_C5 (rs : List InventoryRecord) (patterns : List String) :
    (filterAndDeduplicate (filterAndDeduplicate rs patterns).1 patterns).1
      = (filterAndDeduplicate rs patterns).1
    ∧ (filterAndDeduplicate (filterAndDeduplicate rs patterns).1 patterns).2.duplicates
      = [] := by
  unfold filterAndDeduplicate
  obtain ⟨hdisj, hnd⟩ := fdd_kept_uuids rs patterns emptyLedger
  obtain ⟨h1, h2⟩ :=
    fdd_pass_through (filterAndDedupFrom rs patterns emptyLedger).1 patterns emptyLedger
      (fdd_kept_passes rs patterns emptyLedger)
      (fun u _ h => (List.not_mem_nil u) h)
      hnd
  exact ⟨h1, h2⟩

/-- Claim C6, amended: for every window of at least one minute the selector
chooses exactly one of five mutually exclusive tiers (the five interval
ids below partition the positive windows), and each tier's interval of
window lengths is closed on its UPPER end and open on its LOWER end; a
window exactly equal to an inter-tier boundary (60, 1440, 10080, 43200)
belongs to the tier BELOW the boundary (the finer-granularity one).
(The original claim had the boundaries closed-low/open-high, putting a
boundary window in the tier above; `claim_C6_cex` refutes that at 60.) -/
theorem claim_C6 (w : Int) (h : 1 ≤ w) :
    ((selectSamplingPlan w).intervalSeconds = 20 ↔ w ≤ 60)
    ∧ ((selectSamplingPlan w).intervalSeconds = 300 ↔ 60 < w ∧ w ≤ 1440)
    ∧ ((selectSamplingPlan w).intervalSeconds = 1800 ↔ 1440 < w ∧ w ≤ 10080)
    ∧ ((selectSamplingPlan w).intervalSeconds = 7200 ↔ 10080 < w ∧ w ≤ 43200)
    ∧ ((selectSamplingPlan w).intervalSeconds = 86400 ↔ 43200 < w)
    ∧ (selectSamplingPlan 60).intervalSeconds = 20
    ∧ (selectSamplingPlan 1440).intervalSeconds = 300
    ∧ (selectSamplingPlan 10080).intervalSeconds = 1800
    ∧ (selectSamplingPlan 43200).intervalSeconds = 7200 := by
  refine ⟨?_, ?_, ?_, ?_, ?_, rfl, rfl, rfl, rfl⟩ <;>
    · unfold selectSamplingPlan
      split_ifs <;> simp <;> omega

/-- Counterexample to C6 as stated: the boundary window 60 does not get
the 300-second tier above the boundary; it gets the 20-second tier below
it. -/
theorem claim_C6_cex :
    (selectSamplingPlan 60).intervalSeconds = 20
    ∧ (selectSamplingPlan 60).intervalSeconds ≠ 300 := ⟨rfl, by decide⟩

/-- Witness for C6 at the concrete boundary input 60. -/
theorem claim_C6_witness : (selectSamplingPlan 60).intervalSeconds = 20 :=
  (claim_C6 60 (by norm_num)).2.2.2.2.2.1

/-- Claim C7: for every window of at least one minute the selected sample
count is a positive integer - no tier's floor division yields zero or a
negative count. -/
theorem claim_C7 (w : Int) (h : 1 ≤ w) : 1 ≤ (selectSamplingPlan w).sampleCount := by
  unfold selectSamplingPlan
  split_ifs with h1 h2 h3 h4
  · exact one_le_fdiv (by norm_num) (by omega)
  · exact one_le_fdiv (by norm_num) (by omega)
  · exact one_le_fdiv (by norm_num) (by omega)
  · exact one_le_fdiv (by norm_num) (by omega)
  · exact one_le_fdiv (by norm_num) (by omega)

/-- Witness for C7 at the smallest supported window. -/
theorem claim_C7_witness : 1 ≤ (selectSamplingPlan 1).sampleCount :=
  claim_C7 1 (by norm_num)

/-- Claim C8: whatever the regex engine does, an engine failure on a
wildcard pattern is absorbed locally: that pattern's check degrades to
"the star-stripped pattern is a substring of the name" (the substring
test is characterised below), and the remaining patterns are still
consulted; nothing propagates to the caller. -/
theorem claim_C8 (engine : List Char → List Char → Option Bool)
    (name pat : String) (rest : List String) :
    (hasMeta pat = true → engine pat.data name.data = none →
      matchesPatternWith engine name pat = containsSub name.data (stripStars pat.data))
    ∧ (containsSub name.data (stripStars pat.data) = true ↔
        ∃ pre suf, name.data = pre ++ stripStars pat.data ++ suf)
    ∧ (shouldSkipByNameWith engine name (pat :: rest)
        = (matchesPatternWith engine name pat || shouldSkipByNameWith engine name rest)) := by
  refine ⟨?_, containsSub_iff _ _, rfl⟩
  intro hm he
  unfold matchesPatternWith
  rw [if_pos hm, he]

/-- Witness for C8 at a concrete input, with an engine that always fails:
the wildcard check degrades to the substring fallback. -/
theorem claim_C8_witness :
    matchesPatternWith (fun _ _ => none) "abc" "b*c"
      = containsSub ("abc" : String).data (stripStars ("b*c" : String).data) :=
  (claim_C8 (fun _ _ => none) "abc" "b*c" []).1 rfl rfl

/-- Claim C9: compiling the escaped-and-substituted pattern never fails -
the parse always succeeds and yields exactly one item per pattern
character (`.` under a star for `*`, a literal otherwise) - so the real
engine always returns a result, the substring-fallback branch is
unreachable, and the skip check is the total function of name and
patterns given by the regex search. -/
theorem claim_C9 (name pat : String) :
    parseRe [] (replStar (reEscape pat.data)) = some (itemsOf pat.data)
    ∧ regexEngine pat.data name.data = some (reSearch (itemsOf pat.data) name.data)
    ∧ matchesPattern name pat
        = (if hasMeta pat then reSearch (itemsOf pat.data) name.data else name == pat) := by
  have h1 : parseRe [] (replStar (reEscape pat.data)) = some (itemsOf pat.data) := by
    rw [parse_transform]
    rfl
  refine ⟨h1, ?_, ?_⟩
  · unfold regexEngine
    rw [h1]
    rfl
  · by_cases hm : hasMeta pat
    · rw [if_pos hm, matchesPattern_meta name pat hm]
    · rw [if_neg hm, matchesPattern_lit name pat (Bool.eq_false_iff.mpr hm)]

/-- Claim C10: every call to the duplicate check preserves the ledger
invariant (duplicates are only attributed to already-accepted UUIDs and
their lists are non-empty), never removes anything from the seen-set, and
never shortens a duplicates list. -/
theorem claim_C10 (u n : String) (l : DuplicateLedger) (h : LedgerInv l) :
    LedgerInv (registerAndCheckDuplicate u n l).2
    ∧ (∀ x ∈ l.seen, x ∈ (registerAndCheckDuplicate u n l).2.seen)
    ∧ (∀ k v, (k, v) ∈ l.duplicates →
        ∃ w, (k, v ++ w) ∈ (registerAndCheckDuplicate u n l).2.duplicates) := by
  by_cases hu : u = ""
  · subst hu
    rw [register_empty_uuid]
    exact ⟨h, fun x hx => hx, fun k v hv => ⟨[], by simpa using hv⟩⟩
  · by_cases hs : u ∈ l.seen
    · rw [register_dup u n l hu hs]
      refine ⟨?_, fun x hx => hx, fun k v hv => addDup_extends _ _ _ _ _ hv⟩
      intro k v hv
      rcases addDup_mem_inv l.duplicates u n k v hv with ⟨v0, hv0, hw⟩ | ⟨rfl, rfl⟩
      · obtain ⟨hseen0, hne0⟩ := h k v0 hv0
        refine ⟨hseen0, ?_⟩
        rcases hw with rfl | rfl
        · exact hne0
        · simp
      · exact ⟨hs, by simp⟩
    · rw [register_new u n l hu hs]
      refine ⟨?_, fun x hx => List.mem_cons_of_mem _ hx,
        fun k v hv => ⟨[], by simpa using hv⟩⟩
      intro k v hv
      obtain ⟨h1, h2⟩ := h k v hv
      exact ⟨List.mem_cons_of_mem _ h1, h2⟩

/-- Witness for C10 at a concrete input: the invariant holds after
registering a fresh UUID into the empty ledger. -/
theorem claim_C10_witness :
    LedgerInv (registerAndCheckDuplicate "u-1" "vmA" emptyLedger).2 :=
  (claim_C10 "u-1" "vmA" emptyLedger
    (fun k v hv => absurd hv (List.not_mem_nil _))).1
